import Mathlib

/-!
Shallow embedding of the easyblink LED pattern library (src/lib.rs).
The f32 arithmetic of the source is modelled by exact rationals; the
machine casts are modelled explicitly: `as i32`/`as usize` truncate
toward zero, `f32::round` rounds half away from zero, and `as u8`
saturates into [0, 255].
-/

set_option autoImplicit false

/-- Rust cast of a float to an integer (`as i32` / `as usize` on an
in-range value): truncation toward zero. -/
def rustTrunc (q : ℚ) : ℤ := if 0 ≤ q then ⌊q⌋ else ⌈q⌉

/-- Rust `f32::round`: rounding half away from zero. -/
def rustRound (q : ℚ) : ℤ := if 0 ≤ q then ⌊q + 1/2⌋ else -⌊-q + 1/2⌋

/-- Rust float remainder `a % b`: `a - b * trunc (a / b)`. -/
def fRem (a b : ℚ) : ℚ := a - b * (rustTrunc (a / b) : ℚ)

/-- Rust saturating cast `as u8` applied to an integer-valued float. -/
def clampU8 (z : ℤ) : ℕ := (min 255 (max 0 z)).toNat

/-- Sector dispatch of `hsv_to_rgb` (src/lib.rs lines 505-518): the
if/else chain bucketing the hue into six sectors, with a final
catch-all branch `(chroma, 0, x)`. -/
def hsv_sector (hue : ℤ) (chroma x : ℚ) : ℚ × ℚ × ℚ :=
  if 0 ≤ hue ∧ hue < 60 then (chroma, x, 0)
  else if 60 ≤ hue ∧ hue < 120 then (x, chroma, 0)
  else if 120 ≤ hue ∧ hue < 180 then (0, chroma, x)
  else if 180 ≤ hue ∧ hue < 240 then (0, x, chroma)
  else if 240 ≤ hue ∧ hue < 300 then (x, 0, chroma)
  else (chroma, 0, x)

/-- The three channel values of `hsv_to_rgb` before the final `as u8`
cast: `round((component + m) * 255)` (src/lib.rs lines 500-524). -/
def hsv_to_rgb_raw (hue saturation : ℤ) (value : ℚ) : ℤ × ℤ × ℤ :=
  let chroma := value * (saturation : ℚ)
  let x := chroma * (1 - |fRem ((hue : ℚ) / 60) 2 - 1|)
  let m := value - chroma
  let s := hsv_sector hue chroma x
  (rustRound ((s.1 + m) * 255),
   rustRound ((s.2.1 + m) * 255),
   rustRound ((s.2.2 + m) * 255))

/-- `hsv_to_rgb` from src/lib.rs lines 500-525, with the saturating
`as u8` casts applied to the rounded channels. -/
def hsv_to_rgb (hue saturation : ℤ) (value : ℚ) : ℕ × ℕ × ℕ :=
  let r := hsv_to_rgb_raw hue saturation value
  (clampU8 r.1, clampU8 r.2.1, clampU8 r.2.2)

/-- `rgb_to_hsv` from src/lib.rs lines 527-558: channels are normalized
to [0,1]; the continuous hue and saturation are truncated by the final
`as i32` casts. -/
def rgb_to_hsv (r g b : ℕ) : ℤ × ℤ × ℚ :=
  let rq : ℚ := (r : ℚ) / 255
  let gq : ℚ := (g : ℚ) / 255
  let bq : ℚ := (b : ℚ) / 255
  let mx := max (max rq gq) bq
  let mn := min (min rq gq) bq
  let delta := mx - mn
  let hue : ℚ :=
    if delta = 0 then 0
    else if mx = rq then 60 * fRem ((gq - bq) / delta) 6
    else if mx = gq then 60 * ((bq - rq) / delta + 2)
    else 60 * ((rq - gq) / delta + 4)
  let saturation : ℚ := if mx = 0 then 0 else delta / mx
  (rustTrunc hue, rustTrunc saturation, mx)

/-- Steps of `pulse_color` (src/lib.rs line 290): `max_steps = 100`. -/
def pulse_max_steps : ℕ := 100

/-- Midpoint of the pulse ramp (src/lib.rs line 293). -/
def pulse_midpoint : ℕ := pulse_max_steps / 2

/-- Per-step uniform brightness of `pulse_color` (src/lib.rs lines
294-298); 0.15 and 0.85 are written as exact rationals. -/
def pulse_value (step : ℕ) : ℚ :=
  if step ≤ pulse_midpoint then 3/20 + 17/20 * ((step : ℚ) / (pulse_midpoint : ℚ))
  else 1 - 17/20 * (((step : ℚ) - (pulse_midpoint : ℚ)) / (pulse_midpoint : ℚ))

/-- Per-pixel hue of the rainbow branch of `pulse_color` (src/lib.rs
line 304): `((i / num_leds) * 359.0) as i32`. -/
def pulse_rainbow_hue (n i : ℕ) : ℤ :=
  rustTrunc ((i : ℚ) / (n : ℚ) * 359)

/-- One pixel of a pulse frame (src/lib.rs lines 300-316). -/
def pulse_pixel (hue : ℤ) (n i : ℕ) (value : ℚ) : ℕ × ℕ × ℕ :=
  if hue = -1 then hsv_to_rgb (pulse_rainbow_hue n i) 1 value
  else hsv_to_rgb hue 1 value

/-- The full sequence of frames written by `pulse_color` (src/lib.rs
lines 289-321); each frame writes pixels 0..num_leds-1 in order. -/
def pulse_frames (n : ℕ) (hue : ℤ) : List (List (ℕ × ℕ × ℕ)) :=
  (List.range pulse_max_steps).map
    (fun step => (List.range n).map (fun i => pulse_pixel hue n i (pulse_value step)))

/-- Nominal chase band size (src/lib.rs line 325). -/
def chase_band_size : ℕ := 30

/-- Number of chase bands (src/lib.rs lines 327-330). -/
def chase_num_bands (n : ℕ) : ℕ :=
  if n > chase_band_size then n / chase_band_size else 1

/-- Width of each chase color band (src/lib.rs line 332). -/
def chase_band_width (n : ℕ) : ℕ := n / (2 * chase_num_bands n)

/-- Intra-band brightness profile of `chase_color` (src/lib.rs lines
342-350): squared ramp up over the first half band, squared ramp down
over the second, zero outside. -/
def chase_band_value (w pos : ℕ) : ℚ :=
  if pos < w then ((pos : ℚ) / (w : ℚ)) ^ 2
  else if pos < 2 * w then (1 - ((pos : ℚ) - (w : ℚ)) / (w : ℚ)) ^ 2
  else 0

/-- Per-pixel brightness of `chase_color` at a given step (src/lib.rs
lines 335-352): maximum of the band profiles over all bands. -/
def chase_value (n step i : ℕ) : ℚ :=
  (List.range (chase_num_bands n)).foldl
    (fun value nb =>
      max value (chase_band_value (chase_band_width n)
        ((i + step + nb * 2 * chase_band_width n) % n))) 0

/-- Models the contract of `rand::Rng::gen_range(lo..=hi)` on integers:
an arbitrary draw `r` reduced into `[lo, hi]`. -/
def gen_range_nat (lo hi r : ℕ) : ℕ := lo + r % (hi + 1 - lo)

/-- Models the contract of `rand::Rng::gen_range(lo..=hi)` on floats:
an arbitrary draw `r` clamped into `[lo, hi]`. -/
def gen_range_clamp (lo hi r : ℚ) : ℚ := max lo (min hi r)

/-- Spark count of `sparkle_color` (src/lib.rs lines 373-378). -/
def sparkle_num_sparks (n r : ℕ) : ℕ :=
  if n < 10 then gen_range_nat 1 n r else gen_range_nat 1 (n / 10) r

/-- Spark count of `fireplace` (src/lib.rs lines 449-454). -/
def fireplace_num_sparks (n r : ℕ) : ℕ :=
  if n < 10 then gen_range_nat 1 n r else gen_range_nat 1 (n / 10) r

/-- Spark count of `christmas_traditional` (src/lib.rs lines 472-477). -/
def christmas_num_sparks (n r : ℕ) : ℕ :=
  if n < 10 then gen_range_nat 1 n r else gen_range_nat 1 (n / 10) r

/-- Random spark brightness `rng.gen_range(0.5..=1.0)` (src/lib.rs
lines 382, 458, 481). -/
def spark_value (r : ℚ) : ℚ := gen_range_clamp (1/2) 1 r

/-- Hue resolution of `sparkle_color` (src/lib.rs lines 384-387): the
sentinel -1 is replaced by a position-derived hue before `hsv_to_rgb`. -/
def sparkle_final_hue (hue : ℤ) (n index : ℕ) : ℤ :=
  if hue = -1 then rustTrunc ((index : ℚ) / (n : ℚ) * 359) else hue

/-- Hue resolution of `knightrider_color` (src/lib.rs lines 411-414). -/
def kr_final_hue (hue : ℤ) (n i : ℕ) : ℤ :=
  if hue = -1 then rustTrunc ((i : ℚ) / (n : ℚ) * 359) else hue

/-- Palette passed to `christmas_traditional` (src/lib.rs line 170). -/
def christmas_palette : List ℤ := [-1, 0, 120, 240, 270]

/-- Pixel written per spark by `christmas_traditional` (src/lib.rs
lines 483-489): the palette sentinel -1 becomes pure white without
calling `hsv_to_rgb`. -/
def christmas_pixel (hue : ℤ) (value : ℚ) : ℕ × ℕ × ℕ :=
  if hue = -1 then (255, 255, 255) else hsv_to_rgb hue 1 value

/-- Tail length of `knightrider_color` (src/lib.rs lines 398-401):
40 percent of the strip, truncated, with a minimum of 1. -/
def kr_tail_length (n : ℕ) : ℕ :=
  if (rustTrunc ((n : ℚ) * (2/5))).toNat < 1 then 1
  else (rustTrunc ((n : ℚ) * (2/5))).toNat

/-- Per-pixel brightness of `knightrider_color` (src/lib.rs lines
416-421): linear fade over the tail, zero beyond it. -/
def kr_brightness (n : ℕ) (position : ℤ) (i : ℕ) : ℚ :=
  if (position - (i : ℤ)).natAbs ≤ kr_tail_length n then
    1 - ((position - (i : ℤ)).natAbs : ℚ) / (kr_tail_length n : ℚ)
  else 0

/-- Position and direction update of `knightrider_color` (src/lib.rs
lines 427-431): the direction reverses when the updated position
reaches either end. -/
def kr_step (n : ℕ) (s : ℤ × ℤ) : ℤ × ℤ :=
  if s.1 + s.2 ≤ 0 - (kr_tail_length n : ℤ) ∨ s.1 + s.2 ≥ (n : ℤ) - 1 then
    (s.1 + s.2, -s.2)
  else (s.1 + s.2, s.2)

/-- Frame loop of `knightrider_color`: the brightness rows produced by
running `steps` frames from state `s` (src/lib.rs lines 408-435). -/
def kr_frames_aux (n : ℕ) : ℕ → ℤ × ℤ → List (List ℚ)
  | 0, _ => []
  | steps + 1, s =>
      ((List.range n).map (kr_brightness n s.1)) :: kr_frames_aux n steps (kr_step n s)

/-- The `2 * num_leds` frames of one `knightrider_color` invocation,
starting at position 0 moving forwards (src/lib.rs lines 403-408). -/
def kr_frames (n : ℕ) : List (List ℚ) := kr_frames_aux n (2 * n) (0, 1)

/-- Frame loop with a fallible commit, modelling the
`write pixels; blinkt.show().unwrap(); sleep` structure shared by every
pattern routine (for example src/lib.rs lines 318-319 and 357-358).
Returns: number of commit attempts, last written buffer, and whether
the loop aborted on a commit failure (`unwrap` panics at once). -/
def run_frames {α : Type} (showOk : ℕ → Bool) : List α → ℕ → ℕ × Option α × Bool
  | [], _ => (0, none, false)
  | f :: rest, k =>
      if showOk k then
        ((run_frames showOk rest (k + 1)).1 + 1,
         some (((run_frames showOk rest (k + 1)).2.1).getD f),
         (run_frames showOk rest (k + 1)).2.2)
      else (1, some f, true)

lemma floor_eq_of {q : ℚ} {z : ℤ} (h1 : (z : ℚ) ≤ q) (h2 : q < z + 1) : ⌊q⌋ = z :=
  Int.floor_eq_iff.mpr ⟨h1, by exact_mod_cast h2⟩

lemma ceil_eq_of {q : ℚ} {z : ℤ} (h1 : (z : ℚ) - 1 < q) (h2 : q ≤ z) : ⌈q⌉ = z :=
  Int.ceil_eq_iff.mpr ⟨by exact_mod_cast h1, h2⟩

lemma rustTrunc_eval_nn {q : ℚ} {z : ℤ} (h0 : 0 ≤ q) (h1 : (z : ℚ) ≤ q)
    (h2 : q < z + 1) : rustTrunc q = z := by
  rw [rustTrunc, if_pos h0]; exact floor_eq_of h1 h2

lemma rustTrunc_eval_neg {q : ℚ} {z : ℤ} (h0 : ¬ 0 ≤ q) (h1 : (z : ℚ) - 1 < q)
    (h2 : q ≤ z) : rustTrunc q = z := by
  rw [rustTrunc, if_neg h0]; exact ceil_eq_of h1 h2

lemma rustRound_eval_nn {q : ℚ} {z : ℤ} (h0 : 0 ≤ q) (h1 : (z : ℚ) ≤ q + 1/2)
    (h2 : q + 1/2 < z + 1) : rustRound q = z := by
  rw [rustRound, if_pos h0]; exact floor_eq_of h1 h2

lemma rustTrunc_zero : rustTrunc 0 = 0 :=
  rustTrunc_eval_nn le_rfl (by norm_num) (by norm_num)

lemma fRem_zero_two : fRem 0 2 = 0 := by
  norm_num [fRem, rustTrunc_zero]

lemma rustTrunc_half : rustTrunc (1/2) = 0 :=
  rustTrunc_eval_nn (by norm_num) (by norm_num) (by norm_num)

lemma fRem_one_two : fRem 1 2 = 1 := by
  norm_num [fRem, rustTrunc_half]

lemma fRem_two_two : fRem 2 2 = 0 := by
  have h : rustTrunc 1 = 1 := rustTrunc_eval_nn (by norm_num) (by norm_num) (by norm_num)
  norm_num [fRem, h]

lemma fRem_three_two : fRem 3 2 = 1 := by
  have h : rustTrunc (3/2) = 1 := rustTrunc_eval_nn (by norm_num) (by norm_num) (by norm_num)
  norm_num [fRem, h]

lemma fRem_four_two : fRem 4 2 = 0 := by
  have h : rustTrunc 2 = 2 := rustTrunc_eval_nn (by norm_num) (by norm_num) (by norm_num)
  norm_num [fRem, h]

lemma fRem_five_two : fRem 5 2 = 1 := by
  have h : rustTrunc (5/2) = 2 := rustTrunc_eval_nn (by norm_num) (by norm_num) (by norm_num)
  norm_num [fRem, h]

lemma rustRound_zero : rustRound 0 = 0 :=
  rustRound_eval_nn le_rfl (by norm_num) (by norm_num)

lemma hsv_at_0 (v : ℚ) : hsv_to_rgb 0 1 v =
    (clampU8 (rustRound (v * 255)), 0, 0) := by
  norm_num [hsv_to_rgb, hsv_to_rgb_raw, hsv_sector, fRem_zero_two, rustRound_zero]
  decide

lemma hsv_at_60 (v : ℚ) : hsv_to_rgb 60 1 v =
    (clampU8 (rustRound (v * 255)), clampU8 (rustRound (v * 255)), 0) := by
  norm_num [hsv_to_rgb, hsv_to_rgb_raw, hsv_sector, fRem_one_two, rustRound_zero]
  decide

lemma hsv_at_120 (v : ℚ) : hsv_to_rgb 120 1 v =
    (0, clampU8 (rustRound (v * 255)), 0) := by
  norm_num [hsv_to_rgb, hsv_to_rgb_raw, hsv_sector, fRem_two_two, rustRound_zero]
  decide

lemma hsv_at_180 (v : ℚ) : hsv_to_rgb 180 1 v =
    (0, clampU8 (rustRound (v * 255)), clampU8 (rustRound (v * 255))) := by
  norm_num [hsv_to_rgb, hsv_to_rgb_raw, hsv_sector, fRem_three_two, rustRound_zero]
  decide

lemma hsv_at_240 (v : ℚ) : hsv_to_rgb 240 1 v =
    (0, 0, clampU8 (rustRound (v * 255))) := by
  norm_num [hsv_to_rgb, hsv_to_rgb_raw, hsv_sector, fRem_four_two, rustRound_zero]
  decide

lemma hsv_at_300 (v : ℚ) : hsv_to_rgb 300 1 v =
    (clampU8 (rustRound (v * 255)), 0, clampU8 (rustRound (v * 255))) := by
  norm_num [hsv_to_rgb, hsv_to_rgb_raw, hsv_sector, fRem_five_two, rustRound_zero]
  decide

lemma fRem_two_bounds {a : ℚ} (h : 0 ≤ a) : 0 ≤ fRem a 2 ∧ fRem a 2 < 2 := by
  have h2 : rustTrunc (a / 2) = ⌊a / 2⌋ := if_pos (by positivity)
  rw [fRem, h2]
  constructor
  · have := Int.floor_le (a / 2)
    linarith
  · have := Int.lt_floor_add_one (a / 2)
    linarith

lemma rustRound_unit {q : ℚ} (h0 : 0 ≤ q) (h1 : q ≤ 1) :
    0 ≤ rustRound (q * 255) ∧ rustRound (q * 255) ≤ 255 := by
  rw [rustRound, if_pos (by positivity)]
  constructor
  · exact Int.le_floor.mpr (by push_cast; linarith)
  · have h : ⌊q * 255 + 1/2⌋ < 256 := Int.floor_lt.mpr (by push_cast; linarith)
    omega

lemma hsv_sector_cases (hue : ℤ) (c x : ℚ) :
    hsv_sector hue c x = (c, x, 0) ∨ hsv_sector hue c x = (x, c, 0) ∨
    hsv_sector hue c x = (0, c, x) ∨ hsv_sector hue c x = (0, x, c) ∨
    hsv_sector hue c x = (x, 0, c) ∨ hsv_sector hue c x = (c, 0, x) := by
  unfold hsv_sector
  split_ifs <;> tauto

lemma raw_bounds_aux (hue : ℤ) (c x m : ℚ)
    (hcm0 : 0 ≤ c + m) (hcm1 : c + m ≤ 1) (hxm0 : 0 ≤ x + m) (hxm1 : x + m ≤ 1)
    (hm0 : 0 ≤ m) (hm1 : m ≤ 1) :
    0 ≤ rustRound (((hsv_sector hue c x).1 + m) * 255) ∧
    rustRound (((hsv_sector hue c x).1 + m) * 255) ≤ 255 ∧
    0 ≤ rustRound (((hsv_sector hue c x).2.1 + m) * 255) ∧
    rustRound (((hsv_sector hue c x).2.1 + m) * 255) ≤ 255 ∧
    0 ≤ rustRound (((hsv_sector hue c x).2.2 + m) * 255) ∧
    rustRound (((hsv_sector hue c x).2.2 + m) * 255) ≤ 255 := by
  rcases hsv_sector_cases hue c x with h | h | h | h | h | h <;>
    rw [h] <;>
    refine ⟨?_, ?_, ?_, ?_, ?_, ?_⟩ <;>
    simp only [zero_add] <;>
    first
      | exact (rustRound_unit hcm0 hcm1).1
      | exact (rustRound_unit hcm0 hcm1).2
      | exact (rustRound_unit hxm0 hxm1).1
      | exact (rustRound_unit hxm0 hxm1).2
      | exact (rustRound_unit hm0 hm1).1
      | exact (rustRound_unit hm0 hm1).2

lemma clampU8_eval {z : ℤ} (h0 : 0 ≤ z) (h1 : z ≤ 255) : (clampU8 z : ℤ) = z := by
  rw [clampU8]
  omega

/-- C1: for every hue in [0,360), saturation in 0,1, and value in
[0,1], the channels computed by hsv_to_rgb lie in [0,255] already
before the saturating cast, and the sector-boundary hues at full
saturation and value produce the documented pure colors, in particular
hsv_to_rgb 0 1 1 = (255, 0, 0). -/
theorem hsv_to_rgb_range_and_pure_boundaries :
    (∀ (hue sat : ℤ) (v : ℚ), 0 ≤ hue → hue < 360 → sat = 0 ∨ sat = 1 →
      0 ≤ v → v ≤ 1 →
      0 ≤ (hsv_to_rgb_raw hue sat v).1 ∧ (hsv_to_rgb_raw hue sat v).1 ≤ 255 ∧
      0 ≤ (hsv_to_rgb_raw hue sat v).2.1 ∧ (hsv_to_rgb_raw hue sat v).2.1 ≤ 255 ∧
      0 ≤ (hsv_to_rgb_raw hue sat v).2.2 ∧ (hsv_to_rgb_raw hue sat v).2.2 ≤ 255) ∧
    hsv_to_rgb 0 1 1 = (255, 0, 0) ∧ hsv_to_rgb 60 1 1 = (255, 255, 0) ∧
    hsv_to_rgb 120 1 1 = (0, 255, 0) ∧ hsv_to_rgb 180 1 1 = (0, 255, 255) ∧
    hsv_to_rgb 240 1 1 = (0, 0, 255) ∧ hsv_to_rgb 300 1 1 = (255, 0, 255) := by
  constructor
  · intro hue sat v hh0 hh360 hsat hv0 hv1
    have hq0 : (0 : ℚ) ≤ (hue : ℚ) / 60 := by positivity
    obtain ⟨ht0, ht2⟩ := fRem_two_bounds hq0
    have habs : |fRem ((hue : ℚ) / 60) 2 - 1| ≤ 1 :=
      abs_le.mpr ⟨by linarith, by linarith⟩
    have habs0 : 0 ≤ |fRem ((hue : ℚ) / 60) 2 - 1| := abs_nonneg _
    simp only [hsv_to_rgb_raw]
    rcases hsat with rfl | rfl
    · refine raw_bounds_aux hue _ _ _ ?_ ?_ ?_ ?_ ?_ ?_ <;> push_cast <;> ring_nf <;> linarith
    · set A := |fRem ((hue : ℚ) / 60) 2 - 1| with hA
      refine raw_bounds_aux hue _ _ _ ?_ ?_ ?_ ?_ ?_ ?_ <;> push_cast <;> ring_nf <;>
        nlinarith [mul_nonneg hv0 habs0, mul_nonneg hv0 (sub_nonneg.mpr habs)]
  · have h255 : rustRound ((1 : ℚ) * 255) = 255 :=
      rustRound_eval_nn (by norm_num) (by norm_num) (by norm_num)
    have hc : clampU8 (rustRound ((1 : ℚ) * 255)) = 255 := by
      rw [h255]; rw [clampU8]; rfl
    refine ⟨?_, ?_, ?_, ?_, ?_, ?_⟩
    · rw [hsv_at_0, hc]
    · rw [hsv_at_60, hc]
    · rw [hsv_at_120, hc]
    · rw [hsv_at_180, hc]
    · rw [hsv_at_240, hc]
    · rw [hsv_at_300, hc]

theorem hsv_to_rgb_range_and_pure_boundaries_witness :
    0 ≤ (hsv_to_rgb_raw 10 1 (1/2)).1 ∧ (hsv_to_rgb_raw 10 1 (1/2)).1 ≤ 255 ∧
    0 ≤ (hsv_to_rgb_raw 10 1 (1/2)).2.1 ∧ (hsv_to_rgb_raw 10 1 (1/2)).2.1 ≤ 255 ∧
    0 ≤ (hsv_to_rgb_raw 10 1 (1/2)).2.2 ∧ (hsv_to_rgb_raw 10 1 (1/2)).2.2 ≤ 255 :=
  hsv_to_rgb_range_and_pure_boundaries.1 10 1 (1/2) (by norm_num) (by norm_num)
    (Or.inr rfl) (by norm_num) (by norm_num)

lemma rustRound_eval_neg {q : ℚ} {z : ℤ} (h0 : ¬ 0 ≤ q) (h1 : ((-z : ℤ) : ℚ) ≤ -q + 1/2)
    (h2 : -q + 1/2 < (-z : ℤ) + 1) : rustRound q = z := by
  rw [rustRound, if_neg h0, floor_eq_of h1 (by exact_mod_cast h2)]
  omega

lemma clampU8_le (z : ℤ) : clampU8 z ≤ 255 := by
  rw [clampU8]
  omega

lemma hsv_sector_catch_all (hue : ℤ) (c x : ℚ) (h : hue < 0 ∨ 300 ≤ hue) :
    hsv_sector hue c x = (c, 0, x) := by
  unfold hsv_sector
  split_ifs with h1 h2 h3 h4 h5
  · omega
  · omega
  · omega
  · omega
  · omega
  · rfl

lemma raw_at_neg_one : hsv_to_rgb_raw (-1) 1 1 = (255, 0, -4) := by
  have ht : rustTrunc ((-1 : ℚ) / 60 / 2) = 0 :=
    rustTrunc_eval_neg (by norm_num) (by norm_num) (by norm_num)
  have hf : fRem ((-1 : ℚ) / 60) 2 = -1/60 := by
    rw [fRem, ht]; norm_num
  have h255 : rustRound 255 = 255 :=
    rustRound_eval_nn (by norm_num) (by norm_num) (by norm_num)
  have hneg : rustRound (-17/4) = -4 :=
    rustRound_eval_neg (by norm_num) (by norm_num) (by norm_num)
  have hsec : hsv_sector (-1) (1 * ((1 : ℤ) : ℚ))
      (1 * ((1 : ℤ) : ℚ) * (1 - |fRem ((((-1 : ℤ)) : ℚ) / 60) 2 - 1|)) = _ :=
    hsv_sector_catch_all (-1) _ _ (Or.inl (by norm_num))
  simp only [hsv_to_rgb_raw, hsec]
  norm_num [hf, h255, rustRound_zero]
  have hf2 : fRem (-(1/60) : ℚ) 2 = -(1/60) := by
    have ht2 : rustTrunc ((-(1/60) : ℚ) / 2) = 0 :=
      rustTrunc_eval_neg (by norm_num) (by norm_num) (by norm_num)
    rw [fRem, ht2]; norm_num
  rw [hf2]
  have habs : |(-(1/60) : ℚ) - 1| = 61/60 := by
    rw [abs_of_nonpos (by norm_num)]; norm_num
  rw [habs]
  have harg : ((1 : ℚ) - 61/60) * 255 = -17/4 := by norm_num
  rw [harg, hneg]

/-- C10: hsv_to_rgb is total over its whole input type: every hue
(including -1 and values at or above 360), every saturation, and every
value yield a channel triple in [0,255]; any hue outside [0,300) takes
the final catch-all sector (chroma, 0, x); and the final u8 conversion
saturates out-of-range channel results, as the concrete input
(-1, 1, 1.0) with raw channels (255, 0, -4) shows. -/
theorem hsv_to_rgb_total :
    (∀ (hue sat : ℤ) (v : ℚ),
      (hsv_to_rgb hue sat v).1 ≤ 255 ∧ (hsv_to_rgb hue sat v).2.1 ≤ 255 ∧
      (hsv_to_rgb hue sat v).2.2 ≤ 255) ∧
    (∀ (hue : ℤ) (c x : ℚ), hue < 0 ∨ 300 ≤ hue → hsv_sector hue c x = (c, 0, x)) ∧
    hsv_to_rgb_raw (-1) 1 1 = (255, 0, -4) ∧ hsv_to_rgb (-1) 1 1 = (255, 0, 0) := by
  refine ⟨?_, hsv_sector_catch_all, raw_at_neg_one, ?_⟩
  · intro hue sat v
    exact ⟨clampU8_le _, clampU8_le _, clampU8_le _⟩
  · simp only [hsv_to_rgb, raw_at_neg_one]
    rw [clampU8, clampU8, clampU8]
    rfl

theorem hsv_to_rgb_total_witness :
    hsv_sector (-1) 5 7 = (5, 0, 7) ∧ hsv_sector 327 5 7 = (5, 0, 7) :=
  ⟨hsv_to_rgb_total.2.1 (-1) 5 7 (Or.inl (by norm_num)),
   hsv_to_rgb_total.2.1 327 5 7 (Or.inr (by norm_num))⟩

lemma rustTrunc_one : rustTrunc 1 = 1 :=
  rustTrunc_eval_nn (by norm_num) (by norm_num) (by norm_num)

lemma c3_eval : rgb_to_hsv 255 0 128 = (-30, 1, 1) := by
  have ht : rustTrunc ((-(128/255) : ℚ) / 6) = 0 :=
    rustTrunc_eval_neg (by norm_num) (by norm_num) (by norm_num)
  have hf : fRem (-(128/255) : ℚ) 6 = -(128/255) := by
    rw [fRem, ht]; norm_num
  have htr : rustTrunc (-(512/17) : ℚ) = -30 :=
    rustTrunc_eval_neg (by norm_num) (by norm_num) (by norm_num)
  simp only [rgb_to_hsv]
  norm_num [max_def, min_def, hf, htr, rustTrunc_one]

/-- C3 counterexample: on input (255, 0, 128), whose channels all lie
in [0,255], rgb_to_hsv returns the hue -30, which is not in [0,360):
the continuous hue is not reduced mod 360 before the integer cast. -/
theorem rgb_to_hsv_hue_out_of_range :
    rgb_to_hsv 255 0 128 = (-30, 1, 1) ∧ ¬ (0 ≤ (rgb_to_hsv 255 0 128).1) := by
  refine ⟨c3_eval, ?_⟩
  rw [c3_eval]
  norm_num

lemma fRem_six_small {q : ℚ} (h1 : -6 < q) (h2 : q < 6) : fRem q 6 = q := by
  have h : rustTrunc (q / 6) = 0 := by
    rw [rustTrunc]
    split_ifs with h0
    · refine Int.floor_eq_zero_iff.mpr ?_
      rw [Set.mem_Ico]
      constructor
      · exact h0
      · linarith
    · refine Int.ceil_eq_zero_iff.mpr ?_
      rw [Set.mem_Ioc]
      push_neg at h0
      constructor
      · linarith
      · linarith
  rw [fRem, h]
  ring

lemma rustTrunc_bound {lo hi : ℤ} {q : ℚ} (h1 : (lo : ℚ) ≤ q) (h2 : q ≤ (hi : ℚ))
    (hlo : lo ≤ 0) (hhi : 0 ≤ hi) : lo ≤ rustTrunc q ∧ rustTrunc q ≤ hi := by
  rw [rustTrunc]
  split_ifs with h
  · constructor
    · exact le_trans hlo (Int.le_floor.mpr (by exact_mod_cast h))
    · calc ⌊q⌋ ≤ ⌊(hi : ℚ)⌋ := Int.floor_le_floor h2
        _ = hi := Int.floor_intCast hi
  · constructor
    · calc lo = ⌈(lo : ℚ)⌉ := (Int.ceil_intCast lo).symm
        _ ≤ ⌈q⌉ := Int.ceil_le_ceil h1
    · push_neg at h
      exact le_trans (Int.ceil_le.mpr (le_of_lt h)) (by simpa using hhi)

lemma rustTrunc_unit {q : ℚ} (h0 : 0 ≤ q) (h1 : q ≤ 1) :
    rustTrunc q = 0 ∨ rustTrunc q = 1 := by
  have h := rustTrunc_bound (show ((0 : ℤ) : ℚ) ≤ q by exact_mod_cast h0)
    (show q ≤ ((1 : ℤ) : ℚ) by exact_mod_cast h1) (by norm_num) (by norm_num)
  omega

/-- C3 (amended): for every RGB input with channels in [0,255],
rgb_to_hsv returns an integer hue in [-60, 300] (the continuous hue is
truncated toward zero and NOT reduced mod 360, so it is negative
whenever the red channel is maximal and blue exceeds green), a
saturation truncated to 0 or 1, and a value equal to the maximum
normalized channel, in [0,1]. -/
theorem rgb_to_hsv_ranges (r g b : ℕ) (hr : r ≤ 255) (hg : g ≤ 255) (hb : b ≤ 255) :
    (-60 ≤ (rgb_to_hsv r g b).1 ∧ (rgb_to_hsv r g b).1 ≤ 300) ∧
    ((rgb_to_hsv r g b).2.1 = 0 ∨ (rgb_to_hsv r g b).2.1 = 1) ∧
    (rgb_to_hsv r g b).2.2 = max (max ((r : ℚ) / 255) ((g : ℚ) / 255)) ((b : ℚ) / 255) ∧
    0 ≤ (rgb_to_hsv r g b).2.2 ∧ (rgb_to_hsv r g b).2.2 ≤ 1 := by
  have hr0 : (0 : ℚ) ≤ (r : ℚ) / 255 := by positivity
  have hg0 : (0 : ℚ) ≤ (g : ℚ) / 255 := by positivity
  have hb0 : (0 : ℚ) ≤ (b : ℚ) / 255 := by positivity
  have hr1 : (r : ℚ) / 255 ≤ 1 := by
    rw [div_le_one (by norm_num)]; exact_mod_cast hr
  have hg1 : (g : ℚ) / 255 ≤ 1 := by
    rw [div_le_one (by norm_num)]; exact_mod_cast hg
  have hb1 : (b : ℚ) / 255 ≤ 1 := by
    rw [div_le_one (by norm_num)]; exact_mod_cast hb
  simp only [rgb_to_hsv]
  set rq : ℚ := (r : ℚ) / 255 with hrq
  set gq : ℚ := (g : ℚ) / 255 with hgq
  set bq : ℚ := (b : ℚ) / 255 with hbq
  set mx := max (max rq gq) bq with hmxdef
  set mn := min (min rq gq) bq with hmndef
  have hrmx : rq ≤ mx := le_trans (le_max_left _ _) (le_max_left _ _)
  have hgmx : gq ≤ mx := le_trans (le_max_right _ _) (le_max_left _ _)
  have hbmx : bq ≤ mx := le_max_right _ _
  have hmnr : mn ≤ rq := le_trans (min_le_left _ _) (min_le_left _ _)
  have hmng : mn ≤ gq := le_trans (min_le_left _ _) (min_le_right _ _)
  have hmnb : mn ≤ bq := min_le_right _ _
  have hmx0 : 0 ≤ mx := le_trans hr0 hrmx
  have hmx1 : mx ≤ 1 := max_le (max_le hr1 hg1) hb1
  have hmn0 : 0 ≤ mn := le_min (le_min hr0 hg0) hb0
  have hmnmx : mn ≤ mx := le_trans hmnr hrmx
  refine ⟨?_, ?_, trivial, hmx0, hmx1⟩
  · by_cases hd : mx - mn = 0
    · rw [if_pos hd, rustTrunc_zero]
      norm_num
    · rw [if_neg hd]
      have hdpos : 0 < mx - mn := lt_of_le_of_ne (by linarith) (Ne.symm hd)
      split_ifs with h1 h2
      · have hqle : (gq - bq) / (mx - mn) ≤ 1 := by
          rw [div_le_one hdpos]; linarith
        have hqge : (-1 : ℚ) ≤ (gq - bq) / (mx - mn) := by
          rw [le_div_iff₀ hdpos]; linarith
        rw [fRem_six_small (by linarith) (by linarith)]
        refine rustTrunc_bound ?_ ?_ (by norm_num) (by norm_num)
        · push_cast; linarith
        · push_cast; linarith
      · have hqle : (bq - rq) / (mx - mn) ≤ 1 := by
          rw [div_le_one hdpos]; linarith
        have hqge : (-1 : ℚ) ≤ (bq - rq) / (mx - mn) := by
          rw [le_div_iff₀ hdpos]; linarith
        refine rustTrunc_bound ?_ ?_ (by norm_num) (by norm_num)
        · push_cast; linarith
        · push_cast; linarith
      · have hqle : (rq - gq) / (mx - mn) ≤ 1 := by
          rw [div_le_one hdpos]; linarith
        have hqge : (-1 : ℚ) ≤ (rq - gq) / (mx - mn) := by
          rw [le_div_iff₀ hdpos]; linarith
        refine rustTrunc_bound ?_ ?_ (by norm_num) (by norm_num)
        · push_cast; linarith
        · push_cast; linarith
  · by_cases hmx : mx = 0
    · rw [if_pos hmx, rustTrunc_zero]
      left; rfl
    · rw [if_neg hmx]
      have hmxpos : 0 < mx := lt_of_le_of_ne hmx0 (Ne.symm hmx)
      have hq0 : (0 : ℚ) ≤ (mx - mn) / mx := div_nonneg (by linarith) (le_of_lt hmxpos)
      have hq1 : (mx - mn) / mx ≤ 1 := by
        rw [div_le_one hmxpos]; linarith
      exact rustTrunc_unit hq0 hq1

theorem rgb_to_hsv_ranges_witness :
    (-60 ≤ (rgb_to_hsv 10 20 30).1 ∧ (rgb_to_hsv 10 20 30).1 ≤ 300) ∧
    ((rgb_to_hsv 10 20 30).2.1 = 0 ∨ (rgb_to_hsv 10 20 30).2.1 = 1) ∧
    (rgb_to_hsv 10 20 30).2.2 =
      max (max ((10 : ℚ) / 255) ((20 : ℚ) / 255)) ((30 : ℚ) / 255) ∧
    0 ≤ (rgb_to_hsv 10 20 30).2.2 ∧ (rgb_to_hsv 10 20 30).2.2 ≤ 1 := by
  have h := rgb_to_hsv_ranges 10 20 30 (by norm_num) (by norm_num) (by norm_num)
  exact_mod_cast h

lemma rgb_to_hsv_value (r g b : ℕ) :
    (rgb_to_hsv r g b).2.2 = max (max ((r : ℚ) / 255) ((g : ℚ) / 255)) ((b : ℚ) / 255) :=
  rfl

lemma roundtrip_core {v : ℚ} (hv0 : 0 ≤ v) (hv1 : v ≤ 1) :
    |((clampU8 (rustRound (v * 255)) : ℕ) : ℚ) / 255 - v| ≤ 1/255 := by
  have hr : rustRound (v * 255) = ⌊v * 255 + 1/2⌋ := if_pos (by positivity)
  have h0 : (0 : ℤ) ≤ ⌊v * 255 + 1/2⌋ := Int.le_floor.mpr (by push_cast; linarith)
  have h1 : ⌊v * 255 + 1/2⌋ ≤ 255 := by
    have h := Int.floor_lt.mpr (show v * 255 + 1/2 < ((256 : ℤ) : ℚ) by push_cast; linarith)
    omega
  have hz : (clampU8 (rustRound (v * 255)) : ℤ) = ⌊v * 255 + 1/2⌋ := by
    rw [hr]; exact clampU8_eval h0 h1
  have hq : ((clampU8 (rustRound (v * 255)) : ℕ) : ℚ) = ((⌊v * 255 + 1/2⌋ : ℤ) : ℚ) := by
    exact_mod_cast hz
  rw [hq]
  have hfl : ((⌊v * 255 + 1/2⌋ : ℤ) : ℚ) ≤ v * 255 + 1/2 := Int.floor_le _
  have hfg : v * 255 + 1/2 - 1 < ((⌊v * 255 + 1/2⌋ : ℤ) : ℚ) := by
    have h := Int.lt_floor_add_one (v * 255 + 1/2)
    linarith
  rw [abs_le]
  constructor
  · linarith
  · linarith

/-- C4: for every value v in [0,1] and every hue on a sector boundary
of the forward formula (0, 60, 120, 180, 240, 300), the value
component of rgb_to_hsv applied to hsv_to_rgb(h, 1, v) equals v to
within 1/255; full round-trip equality of hue and saturation is not
claimed. -/
theorem roundtrip_value_at_boundaries (h : ℤ) (v : ℚ)
    (hmem : h = 0 ∨ h = 60 ∨ h = 120 ∨ h = 180 ∨ h = 240 ∨ h = 300)
    (hv0 : 0 ≤ v) (hv1 : v ≤ 1) :
    |(rgb_to_hsv (hsv_to_rgb h 1 v).1 (hsv_to_rgb h 1 v).2.1
      (hsv_to_rgb h 1 v).2.2).2.2 - v| ≤ 1/255 := by
  have hN0 : (0 : ℚ) ≤ ((clampU8 (rustRound (v * 255)) : ℕ) : ℚ) / 255 := by positivity
  rcases hmem with rfl | rfl | rfl | rfl | rfl | rfl
  · rw [hsv_at_0]
    dsimp only
    rw [rgb_to_hsv_value]
    norm_num
    try simp only [max_self, max_eq_left hN0, max_eq_right hN0]
    exact roundtrip_core hv0 hv1
  · rw [hsv_at_60]
    dsimp only
    rw [rgb_to_hsv_value]
    norm_num
    try simp only [max_self, max_eq_left hN0, max_eq_right hN0]
    exact roundtrip_core hv0 hv1
  · rw [hsv_at_120]
    dsimp only
    rw [rgb_to_hsv_value]
    norm_num
    try simp only [max_self, max_eq_left hN0, max_eq_right hN0]
    exact roundtrip_core hv0 hv1
  · rw [hsv_at_180]
    dsimp only
    rw [rgb_to_hsv_value]
    norm_num
    try simp only [max_self, max_eq_left hN0, max_eq_right hN0]
    exact roundtrip_core hv0 hv1
  · rw [hsv_at_240]
    dsimp only
    rw [rgb_to_hsv_value]
    norm_num
    try simp only [max_self, max_eq_left hN0, max_eq_right hN0]
    exact roundtrip_core hv0 hv1
  · rw [hsv_at_300]
    dsimp only
    rw [rgb_to_hsv_value]
    norm_num
    try simp only [max_self, max_eq_left hN0, max_eq_right hN0]
    exact roundtrip_core hv0 hv1

theorem roundtrip_value_at_boundaries_witness :
    |(rgb_to_hsv (hsv_to_rgb 0 1 (1/3)).1 (hsv_to_rgb 0 1 (1/3)).2.1
      (hsv_to_rgb 0 1 (1/3)).2.2).2.2 - 1/3| ≤ 1/255 :=
  roundtrip_value_at_boundaries 0 (1/3) (Or.inl rfl) (by norm_num) (by norm_num)

lemma chase_band_value_nonneg (w pos : ℕ) : 0 ≤ chase_band_value w pos := by
  rw [chase_band_value]
  split_ifs <;> positivity

/-- C5: in solid-color Chase with 30 LEDs there is a single band of
width 15; the per-position brightness is 0 at position 0 inside the
band, rises strictly (as (pos/width) squared) up to position 14, and
falls strictly back toward 0 (as (1 - (pos-width)/width) squared) over
positions 15 to 29; the per-pixel chase value at step 0 is exactly this
band profile. -/
theorem chase_band_profile :
    chase_num_bands 30 = 1 ∧ chase_band_width 30 = 15 ∧
    (∀ i, i < 30 → chase_value 30 0 i = chase_band_value 15 i) ∧
    chase_band_value 15 0 = 0 ∧
    (∀ p, p < 14 → chase_band_value 15 p < chase_band_value 15 (p + 1)) ∧
    (∀ p, 15 ≤ p → p < 29 → chase_band_value 15 (p + 1) < chase_band_value 15 p) := by
  have hnb : chase_num_bands 30 = 1 := by norm_num [chase_num_bands, chase_band_size]
  have hbw : chase_band_width 30 = 15 := by norm_num [chase_band_width, hnb]
  refine ⟨hnb, hbw, ?_, ?_, ?_, ?_⟩
  · intro i hi
    rw [chase_value, hnb, hbw]
    show max 0 (chase_band_value 15 ((i + 0 + 0 * 2 * 15) % 30)) = chase_band_value 15 i
    rw [max_eq_right (chase_band_value_nonneg _ _)]
    norm_num [Nat.mod_eq_of_lt hi]
  · norm_num [chase_band_value]
  · intro p hp
    have h1 : p < 15 := by omega
    have h2 : p + 1 < 15 := by omega
    rw [chase_band_value, chase_band_value, if_pos h1, if_pos h2]
    have ha : (0 : ℚ) ≤ (p : ℚ) / 15 := by positivity
    have hb : (p : ℚ) / 15 < ((p + 1 : ℕ) : ℚ) / 15 := by push_cast; linarith
    nlinarith [ha, hb]
  · intro p hp1 hp2
    have h1 : ¬ p < 15 := by omega
    have h2 : p < 2 * 15 := by omega
    have h3 : ¬ p + 1 < 15 := by omega
    have h4 : p + 1 < 2 * 15 := by omega
    rw [chase_band_value, chase_band_value, if_neg h1, if_pos h2, if_neg h3, if_pos h4]
    have hple : (p : ℚ) ≤ 28 := by exact_mod_cast Nat.le_of_lt_succ hp2
    have hpge : (15 : ℚ) ≤ (p : ℚ) := by exact_mod_cast hp1
    have hA0 : (0 : ℚ) < 1 - (((p + 1 : ℕ) : ℚ) - 15) / 15 := by push_cast; linarith
    have hAB : 1 - (((p + 1 : ℕ) : ℚ) - 15) / 15 < 1 - ((p : ℚ) - 15) / 15 := by
      push_cast; linarith
    nlinarith [hA0, hAB]


theorem chase_band_profile_witness :
    chase_value 30 0 7 = chase_band_value 15 7 ∧
    chase_band_value 15 7 < chase_band_value 15 8 ∧
    chase_band_value 15 21 < chase_band_value 15 20 :=
  ⟨chase_band_profile.2.2.1 7 (by norm_num),
   chase_band_profile.2.2.2.2.1 7 (by norm_num),
   chase_band_profile.2.2.2.2.2 20 (by norm_num) (by norm_num)⟩

lemma kr_tail_length_ten : kr_tail_length 10 = 4 := by
  have harg : ((10 : ℕ) : ℚ) * (2/5) = 4 := by norm_num
  have h : rustTrunc (((10 : ℕ) : ℚ) * (2/5)) = 4 := by
    rw [harg]; exact rustTrunc_eval_nn (by norm_num) (by norm_num) (by norm_num)
  rw [kr_tail_length, h]
  norm_num
  rfl

lemma kr_frames_aux_length (n : ℕ) :
    ∀ (steps : ℕ) (s : ℤ × ℤ), (kr_frames_aux n steps s).length = steps := by
  intro steps
  induction steps with
  | zero => intro s; rfl
  | succ k ih =>
      intro s
      simp only [kr_frames_aux, List.length_cons, ih]

/-- C6: in Scan/KnightRider with 10 LEDs the tail length is 4; at
position 0 the brightness at pixel 0 is 1.0 and at pixel 5 is 0.0
(1 - distance/tail inside the tail, 0 outside); the direction flips
exactly when the updated position reaches a boundary of the reflecting
interval [-4, 9] = [-tail_length, led_count - 1]; and the routine
produces exactly 2 * led_count = 20 frames. -/
theorem knightrider_scan_props :
    kr_tail_length 10 = 4 ∧
    kr_brightness 10 0 0 = 1 ∧ kr_brightness 10 0 5 = 0 ∧
    (∀ p d : ℤ, kr_step 10 (p, d) =
      (p + d, if p + d ≤ -4 ∨ 9 ≤ p + d then -d else d)) ∧
    (kr_frames 10).length = 2 * 10 := by
  refine ⟨kr_tail_length_ten, ?_, ?_, ?_, ?_⟩
  · rw [kr_brightness, kr_tail_length_ten]
    norm_num
  · rw [kr_brightness, kr_tail_length_ten]
    norm_num
  · intro p d
    simp only [kr_step, kr_tail_length_ten]
    norm_num
    split_ifs <;> rfl
  · rw [kr_frames, kr_frames_aux_length]

/-- C7: in each single-frame spark routine (sparkle, fireplace,
christmas_traditional), with 5 LEDs the spark count always lies in
[1,5], with 100 LEDs in [1,10], and every randomly drawn spark
brightness lies in [0.5, 1.0], for every possible generator draw. -/
theorem spark_count_and_brightness_ranges :
    (∀ r : ℕ, 1 ≤ sparkle_num_sparks 5 r ∧ sparkle_num_sparks 5 r ≤ 5 ∧
      1 ≤ sparkle_num_sparks 100 r ∧ sparkle_num_sparks 100 r ≤ 10) ∧
    (∀ r : ℕ, 1 ≤ fireplace_num_sparks 5 r ∧ fireplace_num_sparks 5 r ≤ 5 ∧
      1 ≤ fireplace_num_sparks 100 r ∧ fireplace_num_sparks 100 r ≤ 10) ∧
    (∀ r : ℕ, 1 ≤ christmas_num_sparks 5 r ∧ christmas_num_sparks 5 r ≤ 5 ∧
      1 ≤ christmas_num_sparks 100 r ∧ christmas_num_sparks 100 r ≤ 10) ∧
    (∀ q : ℚ, 1/2 ≤ spark_value q ∧ spark_value q ≤ 1) := by
  refine ⟨?_, ?_, ?_, ?_⟩
  · intro r
    simp only [sparkle_num_sparks, gen_range_nat]
    norm_num
    omega
  · intro r
    simp only [fireplace_num_sparks, gen_range_nat]
    norm_num
    omega
  · intro r
    simp only [christmas_num_sparks, gen_range_nat]
    norm_num
    omega
  · intro q
    rw [spark_value, gen_range_clamp]
    exact ⟨le_max_left _ _, max_le (by norm_num) (min_le_left _ _)⟩

lemma rainbow_hue_bounds {n i : ℕ} (hi : i < n) :
    0 ≤ rustTrunc ((i : ℚ) / (n : ℚ) * 359) ∧
    rustTrunc ((i : ℚ) / (n : ℚ) * 359) < 360 := by
  have hn : 0 < n := lt_of_le_of_lt (Nat.zero_le i) hi
  have hnq : (0 : ℚ) < (n : ℚ) := by exact_mod_cast hn
  have h0 : (0 : ℚ) ≤ (i : ℚ) / (n : ℚ) * 359 := by positivity
  have hdiv : (i : ℚ) / (n : ℚ) < 1 := (div_lt_one hnq).mpr (by exact_mod_cast hi)
  have h1 : (i : ℚ) / (n : ℚ) * 359 < 359 := by nlinarith
  rw [rustTrunc, if_pos h0]
  constructor
  · exact Int.le_floor.mpr (by exact_mod_cast h0)
  · exact Int.floor_lt.mpr (by push_cast; linarith)

/-- C2: the rainbow sentinel hue -1 is never passed to hsv_to_rgb as a
literal hue: pulse, sparkle and knightrider resolve it to a concrete
per-pixel hue in [0, 360) before converting, and the palette sentinel
in christmas_traditional yields pure white (255, 255, 255) without any
hue conversion, every non-sentinel palette hue being nonnegative. -/
theorem rainbow_sentinel_resolved (n i : ℕ) (v : ℚ) (hi : i < n) :
    (0 ≤ pulse_rainbow_hue n i ∧ pulse_rainbow_hue n i < 360) ∧
    (0 ≤ sparkle_final_hue (-1) n i ∧ sparkle_final_hue (-1) n i < 360) ∧
    (0 ≤ kr_final_hue (-1) n i ∧ kr_final_hue (-1) n i < 360) ∧
    christmas_pixel (-1) v = (255, 255, 255) ∧
    (∀ hue ∈ christmas_palette, hue = -1 ∨ 0 ≤ hue) := by
  have h := rainbow_hue_bounds hi
  refine ⟨?_, ?_, ?_, ?_, ?_⟩
  · rw [pulse_rainbow_hue]
    exact h
  · rw [sparkle_final_hue, if_pos rfl]
    exact h
  · rw [kr_final_hue, if_pos rfl]
    exact h
  · rw [christmas_pixel, if_pos rfl]
  · decide

theorem rainbow_sentinel_resolved_witness :
    (0 ≤ pulse_rainbow_hue 2 0 ∧ pulse_rainbow_hue 2 0 < 360) ∧
    (0 ≤ sparkle_final_hue (-1) 2 0 ∧ sparkle_final_hue (-1) 2 0 < 360) ∧
    (0 ≤ kr_final_hue (-1) 2 0 ∧ kr_final_hue (-1) 2 0 < 360) ∧
    christmas_pixel (-1) 0 = (255, 255, 255) ∧
    (∀ hue ∈ christmas_palette, hue = -1 ∨ 0 ≤ hue) :=
  rainbow_sentinel_resolved 2 0 0 (by norm_num)

lemma pulse_midpoint_eq : pulse_midpoint = 50 := rfl

/-- C8: for every led count of at least 1 and every fixed non-sentinel
hue, pulse produces exactly 100 frames, each writing all led_count
pixels with one uniform color (exactly one pixel per frame when
led_count = 1); the uniform brightness starts at 0.15, rises strictly
to 1.0 at the midpoint step 50, falls strictly afterwards, and stays
within [0.15, 1.0] throughout. -/
theorem pulse_fixed_hue_props (n : ℕ) (hue : ℤ) (hn : 1 ≤ n) (hh : hue ≠ -1) :
    pulse_frames n hue = (List.range 100).map
      (fun step => List.replicate n (hsv_to_rgb hue 1 (pulse_value step))) ∧
    (pulse_frames n hue).length = 100 ∧
    (∀ f ∈ pulse_frames n hue, f.length = n) ∧
    pulse_value 0 = 3/20 ∧ pulse_value 50 = 1 ∧
    (∀ s, s < 50 → pulse_value s < pulse_value (s + 1)) ∧
    (∀ s, 50 ≤ s → s < 99 → pulse_value (s + 1) < pulse_value s) ∧
    (∀ s, s < 100 → 3/20 ≤ pulse_value s ∧ pulse_value s ≤ 1) := by
  refine ⟨?_, ?_, ?_, ?_, ?_, ?_, ?_, ?_⟩
  · rw [pulse_frames]
    show (List.range pulse_max_steps).map _ = _
    rw [show pulse_max_steps = 100 from rfl]
    apply List.map_congr_left
    intro step _
    refine List.eq_replicate_iff.2 ⟨by simp, ?_⟩
    intro b hb
    simp only [List.mem_map, List.mem_range] at hb
    obtain ⟨i, _, rfl⟩ := hb
    rw [pulse_pixel, if_neg hh]
  · simp [pulse_frames, pulse_max_steps]
  · intro f hf
    simp only [pulse_frames, List.mem_map, List.mem_range] at hf
    obtain ⟨step, _, rfl⟩ := hf
    simp
  · norm_num [pulse_value, pulse_midpoint, pulse_max_steps]
  · norm_num [pulse_value, pulse_midpoint, pulse_max_steps]
  · intro s hs
    rw [pulse_value, pulse_value, pulse_midpoint_eq]
    rw [if_pos (by omega), if_pos (by omega)]
    push_cast
    linarith [show (s : ℚ) < (s : ℚ) + 1 by linarith]
  · intro s h1 h2
    rcases eq_or_lt_of_le h1 with rfl | hgt
    · norm_num [pulse_value, pulse_midpoint, pulse_max_steps]
    · rw [pulse_value, pulse_value, pulse_midpoint_eq]
      rw [if_neg (by omega), if_neg (by omega)]
      push_cast
      linarith [show (s : ℚ) < (s : ℚ) + 1 by linarith]
  · intro s hs
    rw [pulse_value, pulse_midpoint_eq]
    split_ifs with h
    · have hc1 : (s : ℚ) ≤ 50 := by exact_mod_cast h
      have hc0 : (0 : ℚ) ≤ (s : ℚ) := by positivity
      push_cast
      constructor <;> linarith
    · have hc1 : (51 : ℚ) ≤ (s : ℚ) := by
        have : 51 ≤ s := by omega
        exact_mod_cast this
      have hc2 : (s : ℚ) ≤ 99 := by
        have : s ≤ 99 := by omega
        exact_mod_cast this
      push_cast
      constructor <;> linarith

theorem pulse_fixed_hue_props_witness :
    (pulse_frames 1 0).length = 100 ∧ pulse_value 0 = 3/20 :=
  ⟨(pulse_fixed_hue_props 1 0 le_rfl (by norm_num)).2.1,
   (pulse_fixed_hue_props 1 0 le_rfl (by norm_num)).2.2.2.1⟩

lemma run_frames_fail_aux {α : Type} (showOk : ℕ → Bool) :
    ∀ (frames : List α) (k0 k : ℕ) (hk : k < frames.length),
      (∀ j, j < k → showOk (k0 + j) = true) → showOk (k0 + k) = false →
      run_frames showOk frames k0 = (k + 1, some (frames.get ⟨k, hk⟩), true) := by
  intro frames
  induction frames with
  | nil =>
      intro k0 k hk
      simp at hk
  | cons f rest ih =>
      intro k0 k hk hpre hfail
      cases k with
      | zero =>
          have h0 : showOk k0 = false := by simpa using hfail
          simp only [run_frames, h0]
          rfl
      | succ kp =>
          have h0 : showOk k0 = true := by
            have h := hpre 0 (Nat.succ_pos kp)
            simpa using h
          have hk2 : kp < rest.length := by simpa using hk
          have hpre2 : ∀ j, j < kp → showOk (k0 + 1 + j) = true := by
            intro j hj
            have h := hpre (j + 1) (by omega)
            have e : k0 + (j + 1) = k0 + 1 + j := by omega
            rw [e] at h
            exact h
          have hfail2 : showOk (k0 + 1 + kp) = false := by
            have e : k0 + (kp + 1) = k0 + 1 + kp := by omega
            rw [e] at hfail
            exact hfail
          have ihr := ih (k0 + 1) kp hk2 hpre2 hfail2
          simp only [run_frames, h0, if_pos, ihr]
          simp [List.get]

/-- C9: a failure of the commit operation (blinkt.show) aborts the
frame loop immediately: if the first k commits succeed and commit k
fails, the loop stops with exactly k+1 commit attempts (no retry, no
further frames), reports the failure, and leaves the buffer in the
state written for frame k. -/
theorem commit_failure_aborts {α : Type} (frames : List α) (showOk : ℕ → Bool)
    (k : ℕ) (hk : k < frames.length) (hpre : ∀ j, j < k → showOk j = true)
    (hfail : showOk k = false) :
    run_frames showOk frames 0 = (k + 1, some (frames.get ⟨k, hk⟩), true) :=
  run_frames_fail_aux showOk frames 0 k hk (by simpa using hpre) (by simpa using hfail)

theorem commit_failure_aborts_witness :
    run_frames (fun j => decide (j = 0)) [10, 20, 30] 0 = (2, some 20, true) := by
  have h := commit_failure_aborts [10, 20, 30] (fun j => decide (j = 0)) 1
    (by norm_num) (by intro j hj; interval_cases j; simp) (by simp)
  simpa using h
